import Mathlib

/-!
Verification of the camera-streaming subsystem of bambuddy
(`backend/app/api/routes/camera.py`).

The development shallowly embeds:
* `_SharedStream` (class `_SharedStream`) as `SStream`;
* `SharedStreamHub` (registry + producer lifecycle) as operations over `Hub`,
  a heap of stream records (`store`, indexed by allocation order, which models
  Python object identity) together with the registry map `reg`
  (`printer_id → heap index`);
* the producer read-loop iteration and its `finally` cleanup block
  (`SharedStreamHub._run_producer`);
* the MJPEG byte-stream frame extractor of `generate_rtsp_mjpeg_stream`
  (`extract_frames` / `process` / `feed`);
* the grid multiplexer poll cycle of `camera_grid_stream.generate`
  (`grid_scan` / `grid_cycle`) and its binary header (`pack_u32le`);
* the fps clamping / poll-interval computations of `make_viewer`,
  `camera_stream` and `camera_grid_stream`.

Timestamps (`time.monotonic()` values) are modelled as rationals,
byte strings as `List Nat`.
-/

/-- `_SharedStream` (camera.py lines 115-132): state of one shared camera
stream.  The Python object's `task` handle is represented implicitly: the
producer task of a stream is identified with the stream's heap index. -/
structure SStream where
  frame : Option (List Nat)
  frame_seq : Nat
  error : Option String
  alive : Bool
  last_accessed : ℚ
  params_key : String
  deriving Repr, DecidableEq

/-- A fresh `_SharedStream` as built by `_SharedStream.__init__`
(frame `None`, `frame_seq` 0, no error, alive, `last_accessed` = now). -/
def newStream (params_key : String) (now : ℚ) : SStream :=
  { frame := none, frame_seq := 0, error := none, alive := true,
    last_accessed := now, params_key := params_key }

/-- The hub state: a heap of all `_SharedStream` objects ever allocated
(`store`, position = object identity) and the registry
`SharedStreamHub._streams` (`reg`: printer id → heap index of the entry). -/
structure Hub where
  store : List SStream
  reg : Int → Option Nat

/-- Pointwise registry update (`self._streams[printer_id] = ...` /
`del self._streams[printer_id]`). -/
def setReg (reg : Int → Option Nat) (pid : Int) (v : Option Nat) :
    Int → Option Nat :=
  fun p => if p = pid then v else reg p

/-- Overwrite the heap record at index `uid` (a field assignment on the
shared Python object). -/
def heapSet (h : Hub) (uid : Nat) (e : SStream) : Hub :=
  { h with store := h.store.set uid e }

/-- `self._streams.get(printer_id)` dereferenced through the heap. -/
def Hub.lookup (h : Hub) (pid : Int) : Option (Nat × SStream) :=
  match h.reg pid with
  | none => none
  | some uid =>
    match h.store[uid]? with
    | none => none
    | some e => some (uid, e)

/-- Allocate a fresh `_SharedStream`, install it in the registry and spawn
its producer (camera.py lines 169-171 / 196-198).  The fresh object's
identity is the current heap length. -/
def Hub.install (h : Hub) (pid : Int) (pk : String) (now : ℚ) :
    Hub × Nat × SStream :=
  let e := newStream pk now
  let uid := h.store.length
  ({ store := h.store ++ [e], reg := setReg h.reg pid (some uid) }, uid, e)

/-- Result of a hub operation: the final hub, the returned entry (identity
and value at return time), and how many producer tasks were spawned and
cancelled during the call. -/
structure OpResult where
  hub : Hub
  uid : Nat
  entry : SStream
  spawned : Nat
  cancelled : Nat

/-- `SharedStreamHub.get_or_start` (camera.py lines 156-173): reuse the
existing entry when present and alive (touching `last_accessed`,
irrespective of `params_key`), else install a fresh stream and spawn one
producer. -/
def get_or_start (h : Hub) (pid : Int) (pk : String) (now : ℚ) : OpResult :=
  match h.lookup pid with
  | some (uid, e) =>
    if e.alive then
      let e' := { e with last_accessed := now }
      { hub := heapSet h uid e', uid := uid, entry := e',
        spawned := 0, cancelled := 0 }
    else
      let r := h.install pid pk now
      { hub := r.1, uid := r.2.1, entry := r.2.2, spawned := 1, cancelled := 0 }
  | none =>
    let r := h.install pid pk now
    { hub := r.1, uid := r.2.1, entry := r.2.2, spawned := 1, cancelled := 0 }

/-- `SharedStreamHub.restart` (camera.py lines 175-200): same `params_key`
on a live entry is a touch-and-return; a different `params_key` marks the
old entry dead, cancels its producer task, and installs a fresh stream. -/
def restart (h : Hub) (pid : Int) (pk : String) (now : ℚ) : OpResult :=
  match h.lookup pid with
  | some (uid, old) =>
    if old.alive then
      if old.params_key = pk then
        let e' := { old with last_accessed := now }
        { hub := heapSet h uid e', uid := uid, entry := e',
          spawned := 0, cancelled := 0 }
      else
        let h1 := heapSet h uid { old with alive := false }
        let r := h1.install pid pk now
        { hub := r.1, uid := r.2.1, entry := r.2.2, spawned := 1, cancelled := 1 }
    else
      let r := h.install pid pk now
      { hub := r.1, uid := r.2.1, entry := r.2.2, spawned := 1, cancelled := 0 }
  | none =>
    let r := h.install pid pk now
    { hub := r.1, uid := r.2.1, entry := r.2.2, spawned := 1, cancelled := 0 }

/-- `SharedStreamHub.IDLE_TIMEOUT` (30.0 seconds). -/
def IDLE_TIMEOUT : ℚ := 30

/-- Outcome of one producer read-loop iteration. -/
inductive ProducerAct
  | exitDead
  | exitIdle
  | keepGoing
  deriving Repr, DecidableEq

/-- One iteration of the producer read loop
(`SharedStreamHub._run_producer`, camera.py lines 256-272): after pulling a
frame from the source, exit if the entry was marked dead; else write the
frame, then increment `frame_seq`, then self-stop (marking dead) when
`now - last_accessed > IDLE_TIMEOUT`. -/
def producer_iteration (h : Hub) (uid : Nat) (f : List Nat) (now : ℚ) :
    Hub × ProducerAct :=
  match h.store[uid]? with
  | none => (h, .exitDead)
  | some e =>
    if e.alive = false then (h, .exitDead)
    else
      let e1 := { e with frame := some f, frame_seq := e.frame_seq + 1 }
      if IDLE_TIMEOUT < now - e1.last_accessed then
        (heapSet h uid { e1 with alive := false }, .exitIdle)
      else
        (heapSet h uid e1, .keepGoing)

/-- Result of the producer's `finally` cleanup. -/
structure CleanupOut where
  hub : Hub
  sourceReleased : Bool

/-- The producer's `finally` block (camera.py lines 278-293), in source
order: (1) `entry.alive = False; entry.frame = None`; (2) `await
source.aclose()` when a source exists, with any exception swallowed
(`releaseFails` is ignored); (3) `del self._streams[printer_id]` only if
the registry still maps `printer_id` to this exact object. -/
def producer_cleanup (h : Hub) (pid : Int) (uid : Nat)
    (sourcePresent releaseFails : Bool) : CleanupOut :=
  let h1 :=
    match h.store[uid]? with
    | some e => heapSet h uid { e with alive := false, frame := none }
    | none => h
  let released := sourcePresent
  let h2 :=
    if h1.reg pid = some uid then { h1 with reg := setReg h1.reg pid none }
    else h1
  { hub := h2, sourceReleased := released }

/-- The single-step mutations any code in camera.py performs on a
`_SharedStream` object: `last_accessed` touches (viewer loop line 217, grid
loop line 750, `get_or_start` line 166, `restart` line 185); the producer's
frame write (line 260) and `frame_seq` increment (line 261); marking dead
(idle stop line 271, `restart` line 193, `stop` line 302, cleanup line 280);
frame clearing (cleanup line 281, `stop` line 303); error recording
(line 277).  No other statement writes these fields. -/
inductive StreamWrite : SStream → SStream → Prop
  | touch (e : SStream) (t : ℚ) : StreamWrite e { e with last_accessed := t }
  | setFrame (e : SStream) (f : List Nat) : StreamWrite e { e with frame := some f }
  | incSeq (e : SStream) : StreamWrite e { e with frame_seq := e.frame_seq + 1 }
  | markDead (e : SStream) : StreamWrite e { e with alive := false }
  | clearFrame (e : SStream) : StreamWrite e { e with frame := none }
  | setError (e : SStream) (s : String) : StreamWrite e { e with error := some s }

/-- Any interleaving of the above writes. -/
def StreamWrites : SStream → SStream → Prop :=
  Relation.ReflTransGen StreamWrite

/-- The producer's publish of one frame (lines 260-261): frame write
followed by the `frame_seq` increment. -/
def publish (e : SStream) (f : List Nat) : SStream :=
  { e with frame := some f, frame_seq := e.frame_seq + 1 }

/-- A viewer poll's paired read (make_viewer lines 221-222): `frame_seq`
first, then `frame`. -/
def viewer_read (e : SStream) : Nat × Option (List Nat) :=
  (e.frame_seq, e.frame)

/-- `del buffer[: max(0, len(buffer) - 1)]`: keep only the trailing byte
(possibly a partial marker); empties an empty buffer. -/
def keepLast (b : List Nat) : List Nat :=
  b.drop (b.length - 1)

/-- `bytes.find(pattern)` for a two-byte pattern `[x, y]`: index of the
first adjacent occurrence, if any. -/
def findPair (x y : Nat) : List Nat → Option Nat
  | a :: b :: rest =>
    if a = x ∧ b = y then some 0
    else (findPair x y (b :: rest)).map (· + 1)
  | _ => none

/-- `buffer.find(b"\xff\xd8")` (camera.py line 542). -/
def findStartMarker (b : List Nat) : Option Nat :=
  findPair 0xff 0xd8 b

/-- `buffer.find(b"\xff\xd9", 2)` (camera.py line 552): the end-marker scan
begins two bytes after the buffer start (which, post-trim, is the start
marker). -/
def findEndMarkerFrom2 (b : List Nat) : Option Nat :=
  (findPair 0xff 0xd9 (b.drop 2)).map (· + 2)

/-- The inner `while True` frame-extraction loop of
`generate_rtsp_mjpeg_stream` (camera.py lines 541-558), fuelled for
structural recursion (each extracted frame removes ≥ 4 buffer bytes, so
`fuel = buffer.length` always suffices): scan for the start marker — if
absent drop all but the trailing byte and stop; else trim leading garbage,
scan for the end marker from offset 2 — if absent stop (buffer retained);
else extract `buffer[: end+2]` as one frame and continue. -/
def extract_frames : Nat → List Nat → List (List Nat) × List Nat
  | 0, b => ([], b)
  | fuel + 1, b =>
    match findStartMarker b with
    | none => ([], keepLast b)
    | some s =>
      let b' := b.drop s
      match findEndMarkerFrom2 b' with
      | none => ([], b')
      | some e =>
        let frame := b'.take (e + 2)
        let rest := b'.drop (e + 2)
        let r := extract_frames fuel rest
        (frame :: r.1, r.2)

/-- Run the extraction loop to completion on a buffer. -/
def process (b : List Nat) : List (List Nat) × List Nat :=
  extract_frames b.length b

/-- Parser state across reads: the retained buffer and the frames emitted
so far. -/
structure ParserState where
  buffer : List Nat
  emitted : List (List Nat)
  deriving Repr, DecidableEq

/-- One outer-loop step (camera.py lines 532-558): append the chunk read
from ffmpeg to the buffer, then extract every complete frame. -/
def feed (st : ParserState) (chunk : List Nat) : ParserState :=
  let r := process (st.buffer ++ chunk)
  { buffer := r.2, emitted := st.emitted ++ r.1 }

/-- Feed a whole sequence of chunks starting from an empty buffer. -/
def run_chunks (chunks : List (List Nat)) : ParserState :=
  chunks.foldl feed { buffer := [], emitted := [] }

/-- A complete JPEG frame as the extractor delimits one: starts with the
start marker, and the first end-marker occurrence at offset ≥ 2 is exactly
its final two bytes. -/
def isFrame (f : List Nat) : Prop :=
  4 ≤ f.length ∧ f.take 2 = [0xff, 0xd8] ∧
    findPair 0xff 0xd9 (f.drop 2) = some (f.length - 4)

instance (f : List Nat) : Decidable (isFrame f) := by
  unfold isFrame; infer_instance

/-- A partial trailing frame: starts with the start marker but contains no
end marker at offset ≥ 2. -/
def isPartial (p : List Nat) : Prop :=
  p.take 2 = [0xff, 0xd8] ∧ findPair 0xff 0xd9 (p.drop 2) = none

instance (p : List Nat) : Decidable (isPartial p) := by
  unfold isPartial; infer_instance

/-- `struct.pack("<I", n)`: four little-endian bytes (requires
`n < 2^32`, which `struct.pack` enforces). -/
def pack_u32le (n : Nat) : List Nat :=
  [n % 256, n / 256 % 256, n / 65536 % 256, n / 16777216 % 256]

/-- `struct.pack("<II", pid, length)` (camera.py line 763): the grid
stream's binary frame header. -/
def pack_header (pid len : Nat) : List Nat :=
  pack_u32le pid ++ pack_u32le len

/-- Decode four little-endian bytes back to the packed integer. -/
def unpack_u32le : List Nat → Option Nat
  | [b0, b1, b2, b3] => some (b0 + 256 * b1 + 65536 * b2 + 16777216 * b3)
  | _ => none

/-- Decode an 8-byte grid header into `(identity, payload length)`. -/
def unpack_header (l : List Nat) : Option (Nat × Nat) :=
  match unpack_u32le (l.take 4), unpack_u32le (l.drop 4) with
  | some a, some b => some (a, b)
  | _, _ => none

/-- Per-connection state of the grid multiplexer generator
(`camera_grid_stream.generate`): the rotation snapshot `entries`
(printer id → stream object taken at request time) and the per-camera
last-seen sequence numbers `seen_seqs`. -/
structure GridClient where
  entries : List (Int × Nat)
  seen_seqs : Int → Nat

/-- `seen_seqs: dict[int, int] = dict.fromkeys(entries, 0)`
(camera.py line 735): every tracked camera starts at sequence 0. -/
def grid_init (entries : List (Int × Nat)) : GridClient :=
  { entries := entries, seen_seqs := fun _ => 0 }

/-- `entries.pop(pid, None)`: drop every pair keyed `pid`. -/
def removePid (l : List (Int × Nat)) (pid : Int) : List (Int × Nat) :=
  l.filter (fun q => q.1 ≠ pid)

/-- One pass of the grid loop body over the iteration snapshot
`list(entries.items())` (camera.py lines 743-765): a dead (or vanished)
producer is popped from the rotation — its `seen_seqs` entry is left as
is and nothing is emitted for it; a live producer is touched, and when its
sequence advanced past `seen_seqs[pid]` and a frame is present, the
last-seen sequence is updated and `(pid, frame)` is emitted (on the wire
as `pack_header pid frame.length ++ frame`). -/
def grid_scan (h : Hub) (ents : List (Int × Nat)) (seen : Int → Nat)
    (snapshot : List (Int × Nat)) (now : ℚ) :
    Hub × List (Int × Nat) × (Int → Nat) × List (Int × List Nat) :=
  match snapshot with
  | [] => (h, ents, seen, [])
  | (pid, uid) :: rest =>
    match h.store[uid]? with
    | none => grid_scan h (removePid ents pid) seen rest now
    | some e =>
      if e.alive = false then
        grid_scan h (removePid ents pid) seen rest now
      else
        let h1 := heapSet h uid { e with last_accessed := now }
        if e.frame_seq ≤ seen pid then grid_scan h1 ents seen rest now
        else
          match e.frame with
          | none => grid_scan h1 ents seen rest now
          | some f =>
            let seen' := fun p => if p = pid then e.frame_seq else seen p
            let r := grid_scan h1 ents seen' rest now
            (r.1, r.2.1, r.2.2.1, (pid, f) :: r.2.2.2)

/-- One full poll cycle of the grid generator: scan the current rotation
snapshot. -/
def grid_cycle (h : Hub) (g : GridClient) (now : ℚ) :
    Hub × GridClient × List (Int × List Nat) :=
  let r := grid_scan h g.entries g.seen_seqs g.entries now
  (r.1, { entries := r.2.1, seen_seqs := r.2.2.1 }, r.2.2.2)

/-- Rejection cases of `camera_grid_stream` (camera.py lines 707-727). -/
inductive GridError
  | noIds
  | capacityExceeded
  | notFound
  deriving Repr, DecidableEq

/-- `_ensure_producer` (camera.py lines 622-678) for the grid path
(`force` false): unknown printers and printers with an external camera
yield no entry and touch nothing; otherwise delegate to
`get_or_start`.  Returns the hub, the optional entry, and the number of
producers spawned. -/
def ensure_producer (h : Hub) (pid : Int) (known external : Int → Bool)
    (pk : String) (now : ℚ) : Hub × Option (Nat × SStream) × Nat :=
  if known pid = false then (h, none, 0)
  else if external pid = true then (h, none, 0)
  else
    let r := get_or_start h pid pk now
    (r.hub, some (r.uid, r.entry), r.spawned)

/-- The synchronous setup phase of `camera_grid_stream` (camera.py lines
707-727), after id parsing: reject an empty id list, reject more than 20
ids, then start producers for each id in order; reject if none resolved.
Returns the outcome together with the final hub and the total number of
producers spawned. -/
def camera_grid_stream_setup (h : Hub) (printer_ids : List Int)
    (known external : Int → Bool) (pk : String) (now : ℚ) :
    Except GridError (List (Int × Nat)) × Hub × Nat :=
  if printer_ids = [] then (.error .noIds, h, 0)
  else if 20 < printer_ids.length then (.error .capacityExceeded, h, 0)
  else
    let r := printer_ids.foldl
      (fun (acc : Hub × List (Int × Nat) × Nat) pid =>
        let r2 := ensure_producer acc.1 pid known external pk now
        match r2.2.1 with
        | some (uid, _) => (r2.1, acc.2.1 ++ [(pid, uid)], acc.2.2 + r2.2.2)
        | none => (r2.1, acc.2.1, acc.2.2 + r2.2.2))
      (h, [], 0)
    if r.2.1 = [] then (.error .notFound, r.1, r.2.2)
    else (.ok r.2.1, r.1, r.2.2)

/-- `make_viewer` (camera.py line 211): poll interval `1.0 / fps` guarded
by `fps > 0`, else the 0.1-second fallback. -/
def viewer_frame_interval (fps : Int) : ℚ :=
  if 0 < fps then 1 / (fps : ℚ) else 1 / 10

/-- The single-camera route's fps clamp before creating the viewer
(camera.py lines 858-861): chamber-image models to `[1, 5]`, RTSP models
to `[1, 30]`. -/
def clamp_fps_single (chamber : Bool) (fps : Int) : Int :=
  if chamber then min (max fps 1) 5 else min (max fps 1) 30

/-- The grid route's fps clamp (camera.py line 729): `max(1, min(fps, 30))`. -/
def clamp_fps_grid (fps : Int) : Int :=
  max 1 (min fps 30)

/-- The grid generator's frame interval (camera.py line 733), computed from
the clamped fps. -/
def grid_frame_interval (fps : Int) : ℚ :=
  1 / ((clamp_fps_grid fps : ℤ) : ℚ)

/-- Concrete one-entry hub fixture (printer id 1 ↦ a live stream with the
given params key, allocated at heap index 0). -/
def hubAlive (pk : String) : Hub :=
  { store := [newStream pk 0], reg := fun p => if p = 1 then some 0 else none }

/-- Concrete empty hub fixture. -/
def hubEmpty : Hub :=
  { store := [], reg := fun _ => none }

/-- Concrete hub fixture whose only registry entry is dead. -/
def hubDead : Hub :=
  { store := [{ newStream "k" 0 with alive := false }],
    reg := fun p => if p = 1 then some 0 else none }

/-- Concrete hub fixture where printer id 1 maps to a replacement stream
(heap index 1) while the old stream at index 0 is still on the heap. -/
def hubTwo : Hub :=
  { store := [newStream "a" 0, newStream "b" 1],
    reg := fun p => if p = 1 then some 1 else none }

/-- Concrete dead stream fixture: its producer has stopped after publishing
five frames. -/
def deadStream : SStream :=
  { frame := some [1], frame_seq := 5, error := none, alive := false,
    last_accessed := 0, params_key := "a" }

/-- Concrete live replacement stream fixture with a fresh sequence space
(one frame published, `frame_seq` 1). -/
def replStream : SStream :=
  { newStream "b" 0 with frame := some [2], frame_seq := 1 }

/-- Concrete hub fixture after a producer replacement for printer 7: heap
index 0 holds the dead old stream, the registry maps 7 to the live
replacement at heap index 1. -/
def hubReplaced : Hub :=
  { store := [deadStream, replStream],
    reg := fun p => if p = 7 then some 1 else none }

/-- Concrete grid-client fixture: still tracking printer 7 through the old
(now dead) stream object, with last-seen sequence 5. -/
def gridC7 : GridClient :=
  { entries := [(7, 0)], seen_seqs := fun p => if p = 7 then 5 else 0 }

/-! ## Theorems -/

theorem viewer_read_fst (e : SStream) : (viewer_read e).1 = e.frame_seq := rfl

theorem streamWrite_seq (e e' : SStream) (h : StreamWrite e e') :
    e'.frame_seq = e.frame_seq ∨ e'.frame_seq = e.frame_seq + 1 := by
  cases h <;> simp

/-- C1: every single mutation camera.py performs on a `_SharedStream` leaves
`frame_seq` unchanged or increments it by exactly one (the producer's
publish, lines 260-261, is the only increment); hence `frame_seq` never
decreases along any interleaving of writes, a viewer's paired
read-seq-then-frame observations are non-decreasing across consecutive
polls, and the publish itself is the fixed order frame-write followed by
the sequence increment. -/
theorem stream_seq_monotone :
    (∀ e e', StreamWrite e e' →
      e'.frame_seq = e.frame_seq ∨ e'.frame_seq = e.frame_seq + 1)
    ∧ (∀ e e', StreamWrites e e' → (viewer_read e).1 ≤ (viewer_read e').1)
    ∧ (∀ e f, StreamWrite e { e with frame := some f }
        ∧ StreamWrite { e with frame := some f } (publish e f)) := by
  refine ⟨streamWrite_seq, ?_, ?_⟩
  · intro e e' h
    rw [viewer_read_fst, viewer_read_fst]
    induction h with
    | refl => exact le_refl _
    | tail _ h2 ih =>
      rcases streamWrite_seq _ _ h2 with he | he <;> omega
  · intro e f
    exact ⟨StreamWrite.setFrame e f, StreamWrite.incSeq _⟩

/-- Witness for C1: a concrete two-write publish trace from a fresh stream,
with the monotonicity conclusion instantiated on it. -/
theorem stream_seq_monotone_witness :
    (viewer_read (newStream "" 0)).1 ≤
      (viewer_read (publish (newStream "" 0) [1])).1 :=
  stream_seq_monotone.2.1 _ _
    (Relation.ReflTransGen.tail
      (Relation.ReflTransGen.tail Relation.ReflTransGen.refl
        (StreamWrite.setFrame (newStream "" 0) [1]))
      (StreamWrite.incSeq _))

/-- C9: the grid stream's binary header is the printer identity followed by
the payload length, each as a 4-byte little-endian unsigned integer, and
decoding the 8 bytes recovers every pair in `[0, 2^32 - 1]`. -/
theorem grid_header_roundtrip (pid len : Nat)
    (hp : pid < 4294967296) (hl : len < 4294967296) :
    unpack_header (pack_header pid len) = some (pid, len) := by
  simp [pack_header, pack_u32le, unpack_header, unpack_u32le, List.take,
    List.drop]
  omega

/-- Witness for C9: the round-trip at `{identity = 7, length = 1234}` and at
the boundary values `0` and `2^32 - 1`. -/
theorem grid_header_roundtrip_witness :
    unpack_header (pack_header 7 1234) = some (7, 1234)
    ∧ unpack_header (pack_header 0 0) = some (0, 0)
    ∧ unpack_header (pack_header 4294967295 4294967295) =
        some (4294967295, 4294967295) :=
  ⟨grid_header_roundtrip 7 1234 (by decide) (by decide),
   grid_header_roundtrip 0 0 (by decide) (by decide),
   grid_header_roundtrip 4294967295 4294967295 (by decide) (by decide)⟩

/-- C10: no division by zero is reachable from any integer fps: the viewer
poll interval is positive for every fps (the `fps > 0` guard substitutes
0.1 when fps ≤ 0), the single-camera route's clamp yields fps in `[1, 5]`
(chamber models) or `[1, 30]` (RTSP models) before the viewer is created,
and the grid route's clamp yields fps in `[1, 30]`, making its frame
interval a division by a nonzero (indeed ≥ 1) denominator. -/
theorem fps_division_safe (fps : Int) (chamber : Bool) :
    0 < viewer_frame_interval fps
    ∧ 1 ≤ clamp_fps_single chamber fps
    ∧ clamp_fps_single chamber fps ≤ (if chamber then 5 else 30)
    ∧ 1 ≤ clamp_fps_grid fps ∧ clamp_fps_grid fps ≤ 30
    ∧ ((clamp_fps_grid fps : ℤ) : ℚ) ≠ 0
    ∧ 0 < grid_frame_interval fps
    ∧ 0 < viewer_frame_interval (clamp_fps_single chamber fps) := by
  have hv : ∀ n : Int, 0 < viewer_frame_interval n := by
    intro n
    unfold viewer_frame_interval
    split
    · have hn : (0 : ℚ) < (n : ℚ) := by exact_mod_cast (by assumption : 0 < n)
      exact one_div_pos.mpr hn
    · norm_num
  have hg1 : 1 ≤ clamp_fps_grid fps := by unfold clamp_fps_grid; omega
  have hgq : (0 : ℚ) < ((clamp_fps_grid fps : ℤ) : ℚ) := by
    exact_mod_cast lt_of_lt_of_le Int.zero_lt_one hg1
  refine ⟨hv fps, ?_, ?_, hg1, ?_, ne_of_gt hgq, one_div_pos.mpr hgq, hv _⟩
  · unfold clamp_fps_single; split <;> omega
  · unfold clamp_fps_single; split <;> simp
  · unfold clamp_fps_grid; omega

theorem lookup_parts {h : Hub} {pid : Int} {uid : Nat} {e : SStream}
    (hl : h.lookup pid = some (uid, e)) :
    h.reg pid = some uid ∧ h.store[uid]? = some e := by
  unfold Hub.lookup at hl
  split at hl
  · exact absurd hl (by simp)
  next u heq =>
    split at hl
    · exact absurd hl (by simp)
    next x hs =>
      simp only [Option.some.injEq, Prod.mk.injEq] at hl
      obtain ⟨rfl, rfl⟩ := hl
      exact ⟨heq, hs⟩

theorem lookup_eq {h : Hub} {pid : Int} {uid : Nat} {e : SStream}
    (hr : h.reg pid = some uid) (hs : h.store[uid]? = some e) :
    h.lookup pid = some (uid, e) := by
  unfold Hub.lookup
  simp [hr, hs]

theorem lookup_uid_lt {h : Hub} {pid : Int} {uid : Nat} {e : SStream}
    (hl : h.lookup pid = some (uid, e)) : uid < h.store.length :=
  (List.getElem?_eq_some.mp (lookup_parts hl).2).1

/-- C2: `get_or_start` returns the existing registry entry — touching its
`last_accessed` — if and only if it is present and alive (no `params_key`
comparison at all); otherwise it installs and returns a fresh
`_SharedStream` (`frame_seq` 0) and spawns exactly one producer task.
Two back-to-back `get_or_start` calls spawn no second producer and return
the same instance, and a dead instance is never the returned one. -/
theorem get_or_start_spec :
    (∀ h pid pk now uid e, h.lookup pid = some (uid, e) → e.alive = true →
      get_or_start h pid pk now =
        { hub := heapSet h uid { e with last_accessed := now }, uid := uid,
          entry := { e with last_accessed := now },
          spawned := 0, cancelled := 0 })
    ∧ (∀ h pid pk now,
        (∀ uid e, h.lookup pid = some (uid, e) → e.alive = false) →
        get_or_start h pid pk now =
          { hub := { store := h.store ++ [newStream pk now],
                     reg := setReg h.reg pid (some h.store.length) },
            uid := h.store.length, entry := newStream pk now,
            spawned := 1, cancelled := 0 })
    ∧ (∀ h pid pk now, (get_or_start h pid pk now).entry.alive = true
        ∧ ((get_or_start h pid pk now).spawned = 1 →
            (get_or_start h pid pk now).entry.frame_seq = 0))
    ∧ (∀ h pid pk now uid e, h.lookup pid = some (uid, e) → e.alive = false →
        (get_or_start h pid pk now).uid ≠ uid)
    ∧ (∀ h pid pk pk' now now',
        (get_or_start (get_or_start h pid pk now).hub pid pk' now').spawned = 0
        ∧ (get_or_start (get_or_start h pid pk now).hub pid pk' now').uid =
            (get_or_start h pid pk now).uid) := by
  have hreuse : ∀ h pid pk now uid e,
      h.lookup pid = some (uid, e) → e.alive = true →
      get_or_start h pid pk now =
        { hub := heapSet h uid { e with last_accessed := now }, uid := uid,
          entry := { e with last_accessed := now },
          spawned := 0, cancelled := 0 } := by
    intro h pid pk now uid e hl ha
    unfold get_or_start
    rw [hl]
    simp [ha]
  have hfresh : ∀ h pid pk now,
      (∀ uid e, h.lookup pid = some (uid, e) → e.alive = false) →
      get_or_start h pid pk now =
        { hub := { store := h.store ++ [newStream pk now],
                   reg := setReg h.reg pid (some h.store.length) },
          uid := h.store.length, entry := newStream pk now,
          spawned := 1, cancelled := 0 } := by
    intro h pid pk now hdead
    unfold get_or_start
    rcases hl : h.lookup pid with _ | ⟨uid, e⟩
    · simp [Hub.install]
    · have := hdead uid e hl
      simp [this, Hub.install]
  have hafter : ∀ h pid pk now,
      (get_or_start h pid pk now).hub.lookup pid =
        some ((get_or_start h pid pk now).uid,
              (get_or_start h pid pk now).entry)
      ∧ (get_or_start h pid pk now).entry.alive = true := by
    intro h pid pk now
    unfold get_or_start
    rcases hl : h.lookup pid with _ | ⟨uid, e⟩
    · simp only [Hub.install]
      constructor
      · exact lookup_eq (by simp [setReg]) (by simp)
      · rfl
    · obtain ⟨hr, hs⟩ := lookup_parts hl
      have hlt : uid < h.store.length := (List.getElem?_eq_some.mp hs).1
      by_cases ha : e.alive
      · simp only [ha, if_true]
        constructor
        · exact lookup_eq (h := heapSet h uid _) (by simpa [heapSet] using hr)
            (by simp [heapSet, List.getElem?_set, hlt])
        · simpa using ha
      · simp only [ha, if_false, Hub.install]
        constructor
        · exact lookup_eq (by simp [setReg]) (by simp)
        · rfl
  refine ⟨hreuse, hfresh, ?_, ?_, ?_⟩
  · intro h pid pk now
    refine ⟨(hafter h pid pk now).2, ?_⟩
    intro hsp
    unfold get_or_start at hsp ⊢
    rcases hl : h.lookup pid with _ | ⟨uid, e⟩
    · simp [Hub.install, newStream]
    · rw [hl] at hsp
      by_cases ha : e.alive
      · simp [ha] at hsp
      · simp [ha, Hub.install, newStream]
  · intro h pid pk now uid e hl ha
    have hd : ∀ uid' e', h.lookup pid = some (uid', e') → e'.alive = false := by
      intro uid' e' hl'
      rw [hl] at hl'
      simp only [Option.some.injEq, Prod.mk.injEq] at hl'
      obtain ⟨rfl, rfl⟩ := hl'
      simpa using ha
    rw [hfresh h pid pk now hd]
    have := lookup_uid_lt hl
    simp
    omega
  · intro h pid pk pk' now now'
    obtain ⟨hl2, ha2⟩ := hafter h pid pk now
    rw [hreuse _ pid pk' now' _ _ hl2 ha2]
    exact ⟨rfl, rfl⟩

/-- Witness for C2: the reuse arm on a one-entry hub with an alive entry and
a mismatching params key, the fresh arm on an empty hub, and the
dead-never-returned arm on a hub holding a dead entry. -/
theorem get_or_start_spec_witness :
    (get_or_start (hubAlive "5-15-0.5") 1 "9-9-9" 2 =
      { hub := heapSet (hubAlive "5-15-0.5") 0
                 { newStream "5-15-0.5" 0 with last_accessed := 2 },
        uid := 0, entry := { newStream "5-15-0.5" 0 with last_accessed := 2 },
        spawned := 0, cancelled := 0 })
    ∧ (get_or_start hubEmpty 1 "k" 0 =
      { hub := { store := [newStream "k" 0],
                 reg := setReg hubEmpty.reg 1 (some 0) },
        uid := 0, entry := newStream "k" 0, spawned := 1, cancelled := 0 })
    ∧ (get_or_start hubDead 1 "k" 3).uid ≠ 0 :=
  ⟨get_or_start_spec.1 (hubAlive "5-15-0.5") 1 "9-9-9" 2 0
     (newStream "5-15-0.5" 0) rfl rfl,
   get_or_start_spec.2.1 hubEmpty 1 "k" 0
     (by intro uid e hl; simp [Hub.lookup, hubEmpty] at hl),
   get_or_start_spec.2.2.2.1 hubDead 1 "k" 3 0
     { newStream "k" 0 with alive := false } rfl rfl⟩

/-- C3: on a live registry entry, `restart` with the same `params_key` is a
touch-and-return that cancels zero tasks, while `restart` with a different
`params_key` marks the old entry dead, cancels exactly its one producer
task, and installs and returns exactly one new live `_SharedStream`
carrying the new `params_key`. -/
theorem restart_spec :
    (∀ h pid pk now uid e, h.lookup pid = some (uid, e) → e.alive = true →
      e.params_key = pk →
      restart h pid pk now =
        { hub := heapSet h uid { e with last_accessed := now }, uid := uid,
          entry := { e with last_accessed := now },
          spawned := 0, cancelled := 0 })
    ∧ (∀ h pid pk now uid e, h.lookup pid = some (uid, e) → e.alive = true →
      e.params_key ≠ pk →
      (restart h pid pk now).cancelled = 1
      ∧ (restart h pid pk now).spawned = 1
      ∧ (restart h pid pk now).entry = newStream pk now
      ∧ (restart h pid pk now).uid ≠ uid
      ∧ (restart h pid pk now).hub.store[uid]? = some { e with alive := false }
      ∧ (restart h pid pk now).hub.lookup pid =
          some ((restart h pid pk now).uid, newStream pk now)) := by
  constructor
  · intro h pid pk now uid e hl ha hpk
    unfold restart
    rw [hl]
    simp [ha, hpk]
  · intro h pid pk now uid e hl ha hpk
    obtain ⟨hr, hs⟩ := lookup_parts hl
    have hlt : uid < h.store.length := (List.getElem?_eq_some.mp hs).1
    refine ⟨?_, ?_, ?_, ?_, ?_, ?_⟩
    · unfold restart; rw [hl]; simp [ha, hpk]
    · unfold restart; rw [hl]; simp [ha, hpk]
    · unfold restart; rw [hl]; simp [ha, hpk, Hub.install]
    · unfold restart; rw [hl]
      simp [ha, hpk, Hub.install, heapSet]
      omega
    · unfold restart; rw [hl]
      simp only [ha, if_true, hpk, ite_false, Hub.install, heapSet]
      rw [List.getElem?_append]
      simp [List.getElem?_set, hlt]
    · unfold restart; rw [hl]
      simp only [ha, if_true, hpk, ite_false, Hub.install, heapSet]
      refine lookup_eq ?_ ?_
      · simp [setReg]
      · simp [List.getElem?_append_right]

/-- Witness for C3: a same-params restart and a different-params restart on
a one-entry hub with a live entry. -/
theorem restart_spec_witness :
    (restart (hubAlive "a") 1 "a" 2 =
      { hub := heapSet (hubAlive "a") 0 { newStream "a" 0 with last_accessed := 2 },
        uid := 0, entry := { newStream "a" 0 with last_accessed := 2 },
        spawned := 0, cancelled := 0 })
    ∧ (restart (hubAlive "a") 1 "b" 2).cancelled = 1
    ∧ (restart (hubAlive "a") 1 "b" 2).entry = newStream "b" 2 :=
  ⟨restart_spec.1 (hubAlive "a") 1 "a" 2 0 (newStream "a" 0) rfl rfl rfl,
   (restart_spec.2 (hubAlive "a") 1 "b" 2 0 (newStream "a" 0) rfl rfl
     (by decide)).1,
   (restart_spec.2 (hubAlive "a") 1 "b" 2 0 (newStream "a" 0) rfl rfl
     (by decide)).2.2.1⟩

/-- C5: the producer's cleanup (a) sets the entry's alive flag false and
clears its frame, (b) reports the source released, with a release failure
having no effect on the outcome, and (c) deletes the registry entry for the
id only when the registry still maps the id to this exact instance — a
replacement entry installed under the same id is never deleted, and other
ids are untouched. -/
theorem producer_cleanup_spec :
    (∀ h pid uid e sp rf, h.store[uid]? = some e →
      ((producer_cleanup h pid uid sp rf).hub.store[uid]? =
          some { e with alive := false, frame := none })
      ∧ ((producer_cleanup h pid uid sp rf).sourceReleased = sp)
      ∧ ((producer_cleanup h pid uid sp rf).hub.reg pid =
          if h.reg pid = some uid then none else h.reg pid)
      ∧ (∀ uid', h.reg pid = some uid' → uid' ≠ uid →
          (producer_cleanup h pid uid sp rf).hub.reg pid = some uid')
      ∧ (∀ pid', pid' ≠ pid →
          (producer_cleanup h pid uid sp rf).hub.reg pid' = h.reg pid'))
    ∧ (∀ h pid uid sp,
        producer_cleanup h pid uid sp true = producer_cleanup h pid uid sp false) := by
  constructor
  · intro h pid uid e sp rf hs
    have hlt : uid < h.store.length := (List.getElem?_eq_some.mp hs).1
    refine ⟨?_, rfl, ?_, ?_, ?_⟩
    · unfold producer_cleanup
      rw [hs]
      simp only [heapSet]
      split <;> simp [List.getElem?_set, hlt]
    · unfold producer_cleanup
      rw [hs]
      simp only [heapSet]
      by_cases hc : h.reg pid = some uid <;> simp [hc, setReg]
    · intro uid' hr' hne
      unfold producer_cleanup
      rw [hs]
      simp only [heapSet]
      rw [if_neg (by simp [hr', hne])]
      exact hr'
    · intro pid' hne
      unfold producer_cleanup
      rw [hs]
      simp only [heapSet]
      by_cases hc : h.reg pid = some uid <;> simp [hc, setReg, hne]
  · intro h pid uid sp
    rfl

/-- Witness for C5: cleanup on a hub whose registry maps the id to a
replacement instance (uid 1) while uid 0's producer cleans up — the
replacement mapping survives. -/
theorem producer_cleanup_spec_witness :
    ((producer_cleanup hubTwo 1 0 true false).hub.store[0]? =
      some { newStream "a" 0 with alive := false, frame := none })
    ∧ ((producer_cleanup hubTwo 1 0 true false).hub.reg 1 = some 1) :=
  ⟨(producer_cleanup_spec.1 hubTwo 1 0 (newStream "a" 0) true false rfl).1,
   (producer_cleanup_spec.1 hubTwo 1 0 (newStream "a" 0) true false rfl).2.2.2.1
      1 rfl (by decide)⟩

/-- C6: a producer that publishes a frame while `now - last_accessed`
exceeds the 30-second idle timeout marks the entry dead (after writing the
frame and incrementing `frame_seq`) and exits its read loop, and its
cleanup then removes the entry from the registry. -/
theorem producer_idle_timeout :
    ∀ h pid uid e f now sp rf, h.store[uid]? = some e → e.alive = true →
      IDLE_TIMEOUT < now - e.last_accessed →
      ((producer_iteration h uid f now).2 = ProducerAct.exitIdle
      ∧ (producer_iteration h uid f now).1.store[uid]? =
          some { publish e f with alive := false }
      ∧ (h.reg pid = some uid →
          (producer_cleanup (producer_iteration h uid f now).1 pid uid
            sp rf).hub.reg pid = none)) := by
  intro h pid uid e f now sp rf hs ha hidle
  have hlt : uid < h.store.length := (List.getElem?_eq_some.mp hs).1
  have hiter : producer_iteration h uid f now =
      (heapSet h uid { publish e f with alive := false }, ProducerAct.exitIdle) := by
    unfold producer_iteration
    rw [hs]
    simp [ha, hidle, publish]
  refine ⟨by rw [hiter], ?_, ?_⟩
  · rw [hiter]
    simp [heapSet, List.getElem?_set, hlt]
  · intro hr
    rw [hiter]
    unfold producer_cleanup
    simp only [heapSet]
    simp [List.getElem?_set, hlt, setReg, hr]

/-- Witness for C6: a one-entry hub whose entry was last accessed at time 0,
publishing at time 31. -/
theorem producer_idle_timeout_witness :
    ((producer_iteration (hubAlive "a") 0 [9] 31).2 = ProducerAct.exitIdle)
    ∧ ((producer_cleanup (producer_iteration (hubAlive "a") 0 [9] 31).1
          1 0 true false).hub.reg 1 = none) :=
  ⟨(producer_idle_timeout (hubAlive "a") 1 0 (newStream "a" 0) [9] 31 true false
      rfl rfl (by norm_num [IDLE_TIMEOUT, newStream])).1,
   (producer_idle_timeout (hubAlive "a") 1 0 (newStream "a" 0) [9] 31 true false
      rfl rfl (by norm_num [IDLE_TIMEOUT, newStream])).2.2 rfl⟩

/-- C8: a grid-stream request listing more than 20 printer ids is rejected
synchronously with the capacity error, before any producer is created or
any registry entry is touched: the hub comes back unchanged and zero
producers were spawned. -/
theorem grid_capacity_reject :
    ∀ h printer_ids known external pk now,
      20 < printer_ids.length →
      camera_grid_stream_setup h printer_ids known external pk now =
        (.error .capacityExceeded, h, 0) := by
  intro h ids known external pk now hlen
  unfold camera_grid_stream_setup
  have hne : ids ≠ [] := by
    intro he
    subst he
    simp at hlen
  rw [if_neg hne, if_pos hlen]

/-- Witness for C8: a request for 21 printers against the empty hub. -/
theorem grid_capacity_reject_witness :
    camera_grid_stream_setup hubEmpty ((List.range 21).map fun n => (n : Int))
      (fun _ => true) (fun _ => false) "k" 0 =
      (.error .capacityExceeded, hubEmpty, 0) :=
  grid_capacity_reject hubEmpty ((List.range 21).map fun n => (n : Int))
    (fun _ => true) (fun _ => false) "k" 0 (by decide)

theorem removePid_no_pid (l : List (Int × Nat)) (pid : Int) :
    ∀ q ∈ removePid l pid, q.1 ≠ pid := by
  intro q hq
  have := List.mem_filter.mp hq
  simpa using this.2

theorem grid_scan_cons_dead (h : Hub) (ents : List (Int × Nat))
    (seen : Int → Nat) (p2 : Int) (u2 : Nat) (rest : List (Int × Nat))
    (now : ℚ) (hdead : ∀ e, h.store[u2]? = some e → e.alive = false) :
    grid_scan h ents seen ((p2, u2) :: rest) now =
      grid_scan h (removePid ents p2) seen rest now := by
  conv_lhs => unfold grid_scan
  rcases hs : h.store[u2]? with _ | e
  · rfl
  · have := hdead e hs
    simp [this]

theorem grid_scan_cons_skip_seq (h : Hub) (ents : List (Int × Nat))
    (seen : Int → Nat) (p2 : Int) (u2 : Nat) (e : SStream)
    (rest : List (Int × Nat)) (now : ℚ) (hs : h.store[u2]? = some e)
    (ha : e.alive = true) (hseq : e.frame_seq ≤ seen p2) :
    grid_scan h ents seen ((p2, u2) :: rest) now =
      grid_scan (heapSet h u2 { e with last_accessed := now }) ents seen
        rest now := by
  conv_lhs => unfold grid_scan
  rw [hs]
  simp [ha, hseq]

theorem grid_scan_cons_skip_frame (h : Hub) (ents : List (Int × Nat))
    (seen : Int → Nat) (p2 : Int) (u2 : Nat) (e : SStream)
    (rest : List (Int × Nat)) (now : ℚ) (hs : h.store[u2]? = some e)
    (ha : e.alive = true) (hseq : ¬ e.frame_seq ≤ seen p2)
    (hf : e.frame = none) :
    grid_scan h ents seen ((p2, u2) :: rest) now =
      grid_scan (heapSet h u2 { e with last_accessed := now }) ents seen
        rest now := by
  conv_lhs => unfold grid_scan
  rw [hs]
  simp [ha, hseq, hf]

theorem grid_scan_cons_emit (h : Hub) (ents : List (Int × Nat))
    (seen : Int → Nat) (p2 : Int) (u2 : Nat) (e : SStream) (f : List Nat)
    (rest : List (Int × Nat)) (now : ℚ) (hs : h.store[u2]? = some e)
    (ha : e.alive = true) (hseq : ¬ e.frame_seq ≤ seen p2)
    (hf : e.frame = some f) :
    grid_scan h ents seen ((p2, u2) :: rest) now =
      ((grid_scan (heapSet h u2 { e with last_accessed := now }) ents
          (fun p => if p = p2 then e.frame_seq else seen p) rest now).1,
       (grid_scan (heapSet h u2 { e with last_accessed := now }) ents
          (fun p => if p = p2 then e.frame_seq else seen p) rest now).2.1,
       (grid_scan (heapSet h u2 { e with last_accessed := now }) ents
          (fun p => if p = p2 then e.frame_seq else seen p) rest now).2.2.1,
       (p2, f) :: (grid_scan (heapSet h u2 { e with last_accessed := now })
          ents (fun p => if p = p2 then e.frame_seq else seen p) rest
          now).2.2.2) := by
  conv_lhs => unfold grid_scan
  rw [hs]
  simp [ha, hseq, hf]

theorem grid_scan_no_pid :
    ∀ (snap : List (Int × Nat)) h ents seen (now : ℚ) pid,
      (∀ q ∈ ents, q.1 ≠ pid) →
      ∀ q ∈ (grid_scan h ents seen snap now).2.1, q.1 ≠ pid := by
  intro snap
  induction snap with
  | nil => intro h ents seen now pid hents q hq; exact hents q hq
  | cons hd rest ih =>
    intro h ents seen now pid hents q hq
    obtain ⟨p2, u2⟩ := hd
    have hrem : ∀ q ∈ removePid ents p2, q.1 ≠ pid := by
      intro q' hq'
      exact hents q' (List.mem_filter.mp hq').1
    rcases hstm : h.store[u2]? with _ | e
    · rw [grid_scan_cons_dead h ents seen p2 u2 rest now
        (by intro e he; rw [hstm] at he; exact absurd he (by simp))] at hq
      exact ih _ _ _ _ pid hrem q hq
    · by_cases ha : e.alive = true
      · by_cases hseq : e.frame_seq ≤ seen p2
        · rw [grid_scan_cons_skip_seq h ents seen p2 u2 e rest now hstm ha
            hseq] at hq
          exact ih _ _ _ _ pid hents q hq
        · rcases hfr : e.frame with _ | f
          · rw [grid_scan_cons_skip_frame h ents seen p2 u2 e rest now hstm
              ha hseq hfr] at hq
            exact ih _ _ _ _ pid hents q hq
          · rw [grid_scan_cons_emit h ents seen p2 u2 e f rest now hstm ha
              hseq hfr] at hq
            exact ih _ _ _ _ pid hents q hq
      · rw [grid_scan_cons_dead h ents seen p2 u2 rest now
          (by intro e2 he2; rw [hstm] at he2; cases he2; simpa using ha)] at hq
        exact ih _ _ _ _ pid hrem q hq

theorem grid_scan_seen_not_in :
    ∀ (snap : List (Int × Nat)) h ents seen (now : ℚ) pid,
      pid ∉ snap.map Prod.fst →
      (grid_scan h ents seen snap now).2.2.1 pid = seen pid := by
  intro snap
  induction snap with
  | nil => intro h ents seen now pid _; rfl
  | cons hd rest ih =>
    intro h ents seen now pid hnin
    obtain ⟨p2, u2⟩ := hd
    simp only [List.map_cons, List.mem_cons, not_or] at hnin
    obtain ⟨hne, hnin2⟩ := hnin
    rcases hstm : h.store[u2]? with _ | e
    · rw [grid_scan_cons_dead h ents seen p2 u2 rest now
        (by intro e he; rw [hstm] at he; exact absurd he (by simp))]
      exact ih _ _ _ _ pid hnin2
    · by_cases ha : e.alive = true
      · by_cases hseq : e.frame_seq ≤ seen p2
        · rw [grid_scan_cons_skip_seq h ents seen p2 u2 e rest now hstm ha hseq]
          exact ih _ _ _ _ pid hnin2
        · rcases hfr : e.frame with _ | f
          · rw [grid_scan_cons_skip_frame h ents seen p2 u2 e rest now hstm
              ha hseq hfr]
            exact ih _ _ _ _ pid hnin2
          · rw [grid_scan_cons_emit h ents seen p2 u2 e f rest now hstm ha
              hseq hfr]
            simp only []
            rw [ih _ _ _ _ pid hnin2]
            simp [hne]
      · rw [grid_scan_cons_dead h ents seen p2 u2 rest now
          (by intro e2 he2; rw [hstm] at he2; cases he2; simpa using ha)]
        exact ih _ _ _ _ pid hnin2

theorem grid_scan_out_not_in :
    ∀ (snap : List (Int × Nat)) h ents seen (now : ℚ) pid,
      pid ∉ snap.map Prod.fst →
      ∀ f, (pid, f) ∉ (grid_scan h ents seen snap now).2.2.2 := by
  intro snap
  induction snap with
  | nil =>
    intro h ents seen now pid _ f hmem
    simp [grid_scan] at hmem
  | cons hd rest ih =>
    intro h ents seen now pid hnin f hmem
    obtain ⟨p2, u2⟩ := hd
    simp only [List.map_cons, List.mem_cons, not_or] at hnin
    obtain ⟨hne, hnin2⟩ := hnin
    rcases hstm : h.store[u2]? with _ | e
    · rw [grid_scan_cons_dead h ents seen p2 u2 rest now
        (by intro e he; rw [hstm] at he; exact absurd he (by simp))] at hmem
      exact ih _ _ _ _ pid hnin2 f hmem
    · by_cases ha : e.alive = true
      · by_cases hseq : e.frame_seq ≤ seen p2
        · rw [grid_scan_cons_skip_seq h ents seen p2 u2 e rest now hstm ha
            hseq] at hmem
          exact ih _ _ _ _ pid hnin2 f hmem
        · rcases hfr : e.frame with _ | fr
          · rw [grid_scan_cons_skip_frame h ents seen p2 u2 e rest now hstm
              ha hseq hfr] at hmem
            exact ih _ _ _ _ pid hnin2 f hmem
          · rw [grid_scan_cons_emit h ents seen p2 u2 e fr rest now hstm ha
              hseq hfr] at hmem
            rcases List.mem_cons.mp hmem with heq | hmem2
            · exact hne (congrArg Prod.fst heq)
            · exact ih _ _ _ _ pid hnin2 f hmem2
      · rw [grid_scan_cons_dead h ents seen p2 u2 rest now
          (by intro e2 he2; rw [hstm] at he2; cases he2; simpa using ha)] at hmem
        exact ih _ _ _ _ pid hnin2 f hmem

/-- Counterexample to C7: in `camera_grid_stream.generate` a dead producer
is popped from the rotation, the per-camera last-seen sequence is never
reset to 0, and nothing is emitted for that camera — even though the
registry already holds a live replacement producer with a fresh sequence
space and a frame ready.  Concretely, a poll cycle over `hubReplaced`
(printer 7's old stream at heap index 0 is dead; the registry maps 7 to the
live replacement at index 1 with `frame_seq` 1) and `gridC7` (rotation
still holding the old object, last-seen sequence 5) leaves the last-seen
sequence at 5, empties the rotation, and delivers no frame. -/
theorem grid_no_reset_counterexample :
    (grid_cycle hubReplaced gridC7 10).2.1.entries = []
    ∧ (grid_cycle hubReplaced gridC7 10).2.1.seen_seqs 7 = 5
    ∧ (grid_cycle hubReplaced gridC7 10).2.2 = []
    ∧ hubReplaced.lookup 7 = some (1, replStream)
    ∧ replStream.alive = true ∧ replStream.frame_seq = 1
    ∧ replStream.frame = some [2] := by
  refine ⟨rfl, rfl, rfl, rfl, rfl, rfl, rfl⟩

theorem heapSet_dead_pres (h : Hub) (u2 uid : Nat) (e x : SStream)
    (hstm : h.store[u2]? = some e) (ha : e.alive = true)
    (hdead : ∀ e2, h.store[uid]? = some e2 → e2.alive = false) :
    ∀ e2, (heapSet h u2 x).store[uid]? = some e2 → e2.alive = false := by
  intro e2 he2
  by_cases hu : u2 = uid
  · subst hu
    exact absurd (hdead e hstm) (by simp [ha])
  · rw [heapSet] at he2
    simp only [List.getElem?_set, if_neg hu] at he2
    exact hdead e2 he2

/-- C7 amended: the multiplexer never resets a per-camera last-seen
sequence.  A new grid connection initialises every tracked camera's
last-seen sequence to 0 (`dict.fromkeys(entries, 0)`), and when a poll
cycle finds a camera's producer dead (or vanished) it permanently removes
that camera from the rotation, leaves its last-seen sequence untouched, and
emits nothing for it — frames of a replacement producer are only delivered
to clients that connect anew. -/
theorem grid_dead_removed_amended :
    (∀ ents pid, (grid_init ents).seen_seqs pid = 0)
    ∧ (∀ (snap : List (Int × Nat)) h ents seen (now : ℚ) pid uid,
        (pid, uid) ∈ snap → (snap.map Prod.fst).Nodup →
        (∀ e, h.store[uid]? = some e → e.alive = false) →
        (∀ q ∈ (grid_scan h ents seen snap now).2.1, q.1 ≠ pid)
        ∧ (grid_scan h ents seen snap now).2.2.1 pid = seen pid
        ∧ (∀ f, (pid, f) ∉ (grid_scan h ents seen snap now).2.2.2)) := by
  refine ⟨fun _ _ => rfl, ?_⟩
  intro snap
  induction snap with
  | nil =>
    intro h ents seen now pid uid hmem
    simp at hmem
  | cons hd rest ih =>
    intro h ents seen now pid uid hmem hnd hdead
    obtain ⟨p2, u2⟩ := hd
    simp only [List.map_cons, List.nodup_cons] at hnd
    obtain ⟨hp2nin, hnd2⟩ := hnd
    rcases List.mem_cons.mp hmem with heq | hmem2
    · rw [Prod.mk.injEq] at heq
      obtain ⟨rfl, rfl⟩ := heq
      rw [grid_scan_cons_dead h ents seen pid uid rest now hdead]
      exact ⟨grid_scan_no_pid rest h _ seen now pid
               (removePid_no_pid ents pid),
             grid_scan_seen_not_in rest h _ seen now pid hp2nin,
             grid_scan_out_not_in rest h _ seen now pid hp2nin⟩
    · have hne : p2 ≠ pid := by
        intro he
        subst he
        exact hp2nin (List.mem_map_of_mem Prod.fst hmem2)
      rcases hstm : h.store[u2]? with _ | e
      · rw [grid_scan_cons_dead h ents seen p2 u2 rest now
          (by intro e2 he2; rw [hstm] at he2; exact absurd he2 (by simp))]
        exact ih h _ seen now pid uid hmem2 hnd2 hdead
      · by_cases ha : e.alive = true
        · have hdead2 := heapSet_dead_pres h u2 uid e
            { e with last_accessed := now } hstm ha hdead
          by_cases hseq : e.frame_seq ≤ seen p2
          · rw [grid_scan_cons_skip_seq h ents seen p2 u2 e rest now hstm ha
              hseq]
            exact ih _ _ seen now pid uid hmem2 hnd2 hdead2
          · rcases hfr : e.frame with _ | fr
            · rw [grid_scan_cons_skip_frame h ents seen p2 u2 e rest now
                hstm ha hseq hfr]
              exact ih _ _ seen now pid uid hmem2 hnd2 hdead2
            · rw [grid_scan_cons_emit h ents seen p2 u2 e fr rest now hstm
                ha hseq hfr]
              obtain ⟨ih1, ih2, ih3⟩ :=
                ih (heapSet h u2 { e with last_accessed := now }) ents
                  (fun p => if p = p2 then e.frame_seq else seen p) now pid
                  uid hmem2 hnd2 hdead2
              refine ⟨ih1, ?_, ?_⟩
              · rw [ih2]
                simp [Ne.symm hne]
              · intro f hf
                rcases List.mem_cons.mp hf with heq2 | hmem3
                · exact hne (congrArg Prod.fst heq2).symm
                · exact ih3 f hmem3
        · rw [grid_scan_cons_dead h ents seen p2 u2 rest now
            (by intro e2 he2; rw [hstm] at he2; cases he2; simpa using ha)]
          exact ih h _ seen now pid uid hmem2 hnd2 hdead

/-- Witness for the amended C7: the dead-producer poll over `hubReplaced`
and the rotation `[(7, 0)]` leaves printer 7's last-seen sequence at its
old value. -/
theorem grid_dead_removed_amended_witness :
    (grid_scan hubReplaced [(7, 0)] gridC7.seen_seqs [(7, 0)] 10).2.2.1 7 =
      gridC7.seen_seqs 7 :=
  (grid_dead_removed_amended.2 [(7, 0)] hubReplaced [(7, 0)]
    gridC7.seen_seqs 10 7 0 (by decide) (by decide)
    (by intro e he
        rw [show hubReplaced.store[0]? = some deadStream from rfl] at he
        cases he
        rfl)).2.1

theorem findPair_cons_cons (x y a b : Nat) (l : List Nat) :
    findPair x y (a :: b :: l) =
      if a = x ∧ b = y then some 0
      else (findPair x y (b :: l)).map (· + 1) := rfl

theorem findPair_some_le {x y : Nat} : ∀ (l : List Nat) (i : Nat),
    findPair x y l = some i → i + 2 ≤ l.length
  | [], i, h => by simp [findPair] at h
  | [_], i, h => by simp [findPair] at h
  | a :: b :: t, i, h => by
    rw [findPair_cons_cons] at h
    split at h
    · cases h
      simp
    · rcases Option.map_eq_some'.mp h with ⟨j, hj, rfl⟩
      have := findPair_some_le (b :: t) j hj
      simpa using this

theorem findPair_append_left {x y : Nat} : ∀ (l c : List Nat) (i : Nat),
    findPair x y l = some i → findPair x y (l ++ c) = some i
  | [], _, i, h => by simp [findPair] at h
  | [_], _, i, h => by simp [findPair] at h
  | a :: b :: t, c, i, h => by
    rw [findPair_cons_cons] at h
    rw [List.cons_append, List.cons_append, findPair_cons_cons]
    split at h
    next hc =>
      cases h
      rw [if_pos hc]
    next hc =>
      rw [if_neg hc]
      rcases Option.map_eq_some'.mp h with ⟨j, hj, rfl⟩
      have := findPair_append_left (b :: t) c j hj
      rw [List.cons_append] at this
      rw [this]
      rfl

theorem keepLast_nil : keepLast [] = [] := rfl

theorem keepLast_single (a : Nat) : keepLast [a] = [a] := rfl

theorem keepLast_cons_cons (a b : Nat) (t : List Nat) :
    keepLast (a :: b :: t) = keepLast (b :: t) := by
  show (a :: b :: t).drop ((a :: b :: t).length - 1) =
    (b :: t).drop ((b :: t).length - 1)
  simp [List.length_cons]

theorem keepLast_append : ∀ (l c : List Nat), l ≠ [] →
    keepLast (l ++ c) = keepLast (keepLast l ++ c)
  | [], _, hne => absurd rfl hne
  | [a], c, _ => by rw [keepLast_single]
  | a :: b :: t, c, _ => by
    rw [keepLast_cons_cons a b t,
      show (a :: b :: t) ++ c = a :: b :: (t ++ c) from rfl,
      keepLast_cons_cons a b (t ++ c)]
    exact keepLast_append (b :: t) c (by simp)

theorem dropLast_append_keepLast : ∀ (l : List Nat),
    l.dropLast ++ keepLast l = l
  | [] => rfl
  | [a] => rfl
  | a :: b :: t => by
    rw [List.dropLast_cons₂, keepLast_cons_cons, List.cons_append,
      dropLast_append_keepLast (b :: t)]

theorem findPair_skip {x y : Nat} : ∀ (l c : List Nat), l ≠ [] →
    findPair x y l = none →
    findPair x y (l ++ c) =
      (findPair x y (keepLast l ++ c)).map (· + (l.length - 1))
  | [], _, hne, _ => absurd rfl hne
  | [a], c, _, _ => by
    rw [keepLast_single]
    rcases findPair x y ([a] ++ c) with _ | j <;> simp
  | a :: b :: t, c, _, h => by
    rw [findPair_cons_cons] at h
    split at h
    · simp at h
    next hc =>
      have h2 : findPair x y (b :: t) = none := by
        rcases hfp : findPair x y (b :: t) with _ | j
        · rfl
        · rw [hfp] at h
          simp at h
      rw [show (a :: b :: t) ++ c = a :: b :: (t ++ c) from rfl,
        findPair_cons_cons, if_neg hc]
      have hrec := findPair_skip (b :: t) c (by simp) h2
      rw [show (b :: t) ++ c = b :: (t ++ c) from rfl] at hrec
      rw [hrec, keepLast_cons_cons]
      rcases findPair x y (keepLast (b :: t) ++ c) with _ | j
      · rfl
      · simp only [Option.map_some', List.length_cons]
        congr 1

theorem findPair_some_head {x y : Nat} : ∀ (l : List Nat) (i : Nat),
    findPair x y l = some i → ∃ t, l.drop i = x :: y :: t
  | [], i, h => by simp [findPair] at h
  | [_], i, h => by simp [findPair] at h
  | a :: b :: t, i, h => by
    rw [findPair_cons_cons] at h
    split at h
    next hc =>
      cases h
      exact ⟨t, by simp [hc.1, hc.2]⟩
    next hc =>
      rcases Option.map_eq_some'.mp h with ⟨j, hj, rfl⟩
      rcases findPair_some_head (b :: t) j hj with ⟨t2, ht2⟩
      exact ⟨t2, by simpa using ht2⟩

theorem findEnd_bound {b' : List Nat} {e : Nat}
    (h : findEndMarkerFrom2 b' = some e) : 2 ≤ e ∧ e + 2 ≤ b'.length := by
  unfold findEndMarkerFrom2 at h
  rcases Option.map_eq_some'.mp h with ⟨j, hj, rfl⟩
  have := findPair_some_le _ _ hj
  simp only [List.length_drop] at this
  omega

theorem findStart_bound {b : List Nat} {s : Nat}
    (h : findStartMarker b = some s) : s + 2 ≤ b.length :=
  findPair_some_le _ _ h

theorem extract_frames_nil (fuel : Nat) : extract_frames fuel [] = ([], []) := by
  cases fuel <;> rfl

theorem extract_frames_stable : ∀ (n fuel fuel' : Nat) (b : List Nat),
    b.length ≤ n → b.length ≤ fuel → b.length ≤ fuel' →
    extract_frames fuel b = extract_frames fuel' b := by
  intro n
  induction n with
  | zero =>
    intro fuel fuel' b hb _ _
    have : b = [] := List.length_eq_zero.mp (Nat.le_zero.mp hb)
    subst this
    rw [extract_frames_nil, extract_frames_nil]
  | succ n ih =>
    intro fuel fuel' b hb hf hf'
    rcases hbe : b with _ | ⟨a, t⟩
    · rw [extract_frames_nil, extract_frames_nil]
    · subst hbe
      have hlen : (a :: t).length = t.length + 1 := rfl
      cases fuel with
      | zero => exact absurd hf (by simp)
      | succ f =>
        cases fuel' with
        | zero => exact absurd hf' (by simp)
        | succ f' =>
          show extract_frames (f + 1) (a :: t) = extract_frames (f' + 1) (a :: t)
          unfold extract_frames
          rcases hstart : findStartMarker (a :: t) with _ | s
          · rfl
          · rcases hend : findEndMarkerFrom2 ((a :: t).drop s) with _ | e
            · simp only [hend]
            · obtain ⟨he2, hele⟩ := findEnd_bound hend
              have hs2 := findStart_bound hstart
              have hdl : ((a :: t).drop s).length = (a :: t).length - s := by
                simp
              have hrest : (((a :: t).drop s).drop (e + 2)).length ≤ n := by
                simp only [List.length_drop] at hdl ⊢
                simp only [hlen] at *
                omega
              have h1 : (((a :: t).drop s).drop (e + 2)).length ≤ f := by
                simp only [List.length_drop, hlen] at *
                omega
              have h2 : (((a :: t).drop s).drop (e + 2)).length ≤ f' := by
                simp only [List.length_drop, hlen] at *
                omega
              simp only [hend]
              rw [ih f f' _ hrest h1 h2]

theorem process_no_start {b : List Nat} (h : findStartMarker b = none) :
    process b = ([], keepLast b) := by
  rcases hbe : b with _ | ⟨a, t⟩
  · rfl
  · subst hbe
    show extract_frames (t.length + 1) (a :: t) = ([], keepLast (a :: t))
    unfold extract_frames
    simp only [h]

theorem process_no_end {b : List Nat} {s : Nat}
    (h1 : findStartMarker b = some s)
    (h2 : findEndMarkerFrom2 (b.drop s) = none) :
    process b = ([], b.drop s) := by
  rcases hbe : b with _ | ⟨a, t⟩
  · subst hbe
    simp [findStartMarker, findPair] at h1
  · subst hbe
    show extract_frames (t.length + 1) (a :: t) = ([], (a :: t).drop s)
    unfold extract_frames
    simp only [h1, h2]

theorem process_frame {b : List Nat} {s e : Nat}
    (h1 : findStartMarker b = some s)
    (h2 : findEndMarkerFrom2 (b.drop s) = some e) :
    process b =
      ((b.drop s).take (e + 2) :: (process ((b.drop s).drop (e + 2))).1,
       (process ((b.drop s).drop (e + 2))).2) := by
  rcases hbe : b with _ | ⟨a, t⟩
  · subst hbe
    simp [findStartMarker, findPair] at h1
  · subst hbe
    show extract_frames (t.length + 1) (a :: t) = _
    unfold extract_frames
    simp only [h1, h2]
    obtain ⟨he2, hele⟩ := findEnd_bound h2
    have hs2 := findStart_bound h1
    have hstab : extract_frames t.length (((a :: t).drop s).drop (e + 2)) =
        process (((a :: t).drop s).drop (e + 2)) := by
      unfold process
      refine extract_frames_stable t.length t.length _ _ ?_ ?_ (le_refl _)
      · simp only [List.length_drop, List.length_cons] at *
        omega
      · simp only [List.length_drop, List.length_cons] at *
        omega
    rw [hstab]

theorem keepLast_nonempty : ∀ (l : List Nat), l ≠ [] → ∃ z, keepLast l = [z]
  | [], h => absurd rfl h
  | [a], _ => ⟨a, rfl⟩
  | a :: b :: t, _ => by
    rw [keepLast_cons_cons]
    exact keepLast_nonempty (b :: t) (by simp)

theorem process_append : ∀ (n : Nat) (a c : List Nat), a.length ≤ n →
    process (a ++ c) =
      ((process a).1 ++ (process ((process a).2 ++ c)).1,
       (process ((process a).2 ++ c)).2) := by
  intro n
  induction n with
  | zero =>
    intro a c ha
    have : a = [] := List.length_eq_zero.mp (Nat.le_zero.mp ha)
    subst this
    simp [process, extract_frames_nil]
  | succ n ih =>
    intro a c ha
    rcases hstart : findStartMarker a with _ | s
    · rcases hae : a with _ | ⟨x, t⟩
      · subst hae
        simp [process, extract_frames_nil]
      · subst hae
        rw [process_no_start hstart]
        simp only [List.nil_append]
        have hskip := findPair_skip (x :: t) c (by simp) hstart
        rcases hk : findStartMarker (keepLast (x :: t) ++ c) with _ | s2
        · have hout : findStartMarker ((x :: t) ++ c) = none := by
            show findPair 255 216 ((x :: t) ++ c) = none
            rw [hskip, show findPair 255 216 (keepLast (x :: t) ++ c) = none
              from hk]
            rfl
          rw [process_no_start hout, process_no_start hk]
          rw [keepLast_append (x :: t) c (by simp)]
        · have hout : findStartMarker ((x :: t) ++ c) =
              some (s2 + ((x :: t).length - 1)) := by
            show findPair 255 216 ((x :: t) ++ c) = _
            rw [hskip, show findPair 255 216 (keepLast (x :: t) ++ c) =
              some s2 from hk]
            rfl
          have hdropeq : (x :: (t ++ c)).drop (s2 + t.length) =
              (keepLast (x :: t) ++ c).drop s2 := by
            rw [show x :: (t ++ c) =
                (x :: t).dropLast ++ (keepLast (x :: t) ++ c) by
              rw [← List.append_assoc, dropLast_append_keepLast,
                List.cons_append]]
            rw [show s2 + t.length = (x :: t).dropLast.length + s2 by
              simp only [List.length_dropLast, List.length_cons]
              omega]
            rw [List.drop_append]
          rcases hend : findEndMarkerFrom2 ((keepLast (x :: t) ++ c).drop s2)
            with _ | e
          · rw [process_no_end hout (by simpa [hdropeq] using hend),
              process_no_end hk hend]
            simp [hdropeq]
          · rw [process_frame hout (by simpa [hdropeq] using hend),
              process_frame hk hend]
            simp [hdropeq]
    · have hs2 := findStart_bound hstart
      have houtstart : findStartMarker (a ++ c) = some s :=
        findPair_append_left a c s hstart
      have hdrop : (a ++ c).drop s = a.drop s ++ c :=
        List.drop_append_of_le_length (by omega)
      rcases hend : findEndMarkerFrom2 (a.drop s) with _ | e
      · rw [process_no_end hstart hend]
        simp only [List.nil_append]
        obtain ⟨t2, ht2⟩ := findPair_some_head a s hstart
        have hstart0 : findStartMarker (a.drop s ++ c) = some 0 := by
          rw [ht2, show (255 :: 216 :: t2) ++ c = 255 :: 216 :: (t2 ++ c)
            from rfl]
          show findPair 255 216 _ = some 0
          rw [findPair_cons_cons]
          simp
        rcases hend2 : findEndMarkerFrom2 (a.drop s ++ c) with _ | e2
        · rw [process_no_end hstart0 (by simpa using hend2),
            process_no_end houtstart (by rw [hdrop]; simpa using hend2)]
          simp [hdrop]
        · rw [process_frame hstart0 (by simpa using hend2),
            process_frame houtstart (by rw [hdrop]; simpa using hend2)]
          simp [hdrop]
      · obtain ⟨he2, hele⟩ := findEnd_bound hend
        rw [process_frame hstart hend]
        have hendL : findEndMarkerFrom2 ((a ++ c).drop s) = some e := by
          rw [hdrop]
          unfold findEndMarkerFrom2 at hend ⊢
          rcases Option.map_eq_some'.mp hend with ⟨j, hj, hje⟩
          have hd2 : (a.drop s ++ c).drop 2 = (a.drop s).drop 2 ++ c :=
            List.drop_append_of_le_length
              (by simp only [List.length_drop] at *; omega)
          rw [hd2, findPair_append_left _ c j hj]
          simpa using hje
        rw [process_frame houtstart hendL]
        have htake : ((a ++ c).drop s).take (e + 2) =
            (a.drop s).take (e + 2) := by
          rw [hdrop]
          exact List.take_append_of_le_length
            (by simp only [List.length_drop] at *; omega)
        have hdrop2 : ((a ++ c).drop s).drop (e + 2) =
            (a.drop s).drop (e + 2) ++ c := by
          rw [hdrop]
          exact List.drop_append_of_le_length
            (by simp only [List.length_drop] at *; omega)
        rw [htake, hdrop2]
        have hrlen : ((a.drop s).drop (e + 2)).length ≤ n := by
          simp only [List.length_drop] at *
          omega
        rw [ih _ c hrlen]
        simp

theorem keepLast_length (b : List Nat) : (keepLast b).length ≤ 1 := by
  simp [keepLast]
  omega

theorem process_residual : ∀ (n : Nat) (b : List Nat), b.length ≤ n →
    process ((process b).2) = ([], (process b).2) := by
  intro n
  induction n with
  | zero =>
    intro b hb
    have : b = [] := List.length_eq_zero.mp (Nat.le_zero.mp hb)
    subst this
    rfl
  | succ n ih =>
    intro b hb
    rcases hstart : findStartMarker b with _ | s
    · rw [process_no_start hstart]
      rcases hk : keepLast b with _ | ⟨z, zs⟩
      · rfl
      · have : zs = [] := by
          have := keepLast_length b
          rw [hk] at this
          simpa using List.length_eq_zero.mp (by simpa using this)
        subst this
        rw [process_no_start (by simp [findStartMarker, findPair])]
        rfl
    · rcases hend : findEndMarkerFrom2 (b.drop s) with _ | e
      · rw [process_no_end hstart hend]
        obtain ⟨t2, ht2⟩ := findPair_some_head b s hstart
        have hstart0 : findStartMarker (b.drop s) = some 0 := by
          rw [ht2]
          show findPair 255 216 _ = some 0
          rw [findPair_cons_cons]
          simp
        rw [process_no_end hstart0 (by simpa using hend)]
        simp
      · rw [process_frame hstart hend]
        obtain ⟨he2, hele⟩ := findEnd_bound hend
        have hs2 := findStart_bound hstart
        refine ih ((b.drop s).drop (e + 2)) ?_
        simp only [List.length_drop] at *
        omega

theorem foldl_feed : ∀ (chunks : List (List Nat)) (buf : List Nat)
    (em : List (List Nat)), process buf = ([], buf) →
    chunks.foldl feed { buffer := buf, emitted := em } =
      { buffer := (process (buf ++ chunks.flatten)).2,
        emitted := em ++ (process (buf ++ chunks.flatten)).1 }
  | [], buf, em, hq => by
    simp only [List.foldl_nil, List.flatten_nil, List.append_nil, hq]
  | ch :: rest, buf, em, hq => by
    rw [List.foldl_cons]
    have hfeed : feed { buffer := buf, emitted := em } ch =
        { buffer := (process (buf ++ ch)).2,
          emitted := em ++ (process (buf ++ ch)).1 } := rfl
    rw [hfeed]
    rw [foldl_feed rest ((process (buf ++ ch)).2)
      (em ++ (process (buf ++ ch)).1)
      (process_residual (buf ++ ch).length _ (le_refl _))]
    have hsplit : buf ++ (ch :: rest).flatten =
        (buf ++ ch) ++ rest.flatten := by
      rw [List.flatten_cons, List.append_assoc]
    rw [hsplit, process_append (buf ++ ch).length _ _ (le_refl _)]
    simp

theorem run_chunks_eq (chunks : List (List Nat)) :
    run_chunks chunks =
      { buffer := (process chunks.flatten).2,
        emitted := (process chunks.flatten).1 } := by
  unfold run_chunks
  rw [foldl_feed chunks [] [] rfl]
  simp

theorem frame_start_lemma (t C : List Nat) :
    findStartMarker ((255 :: 216 :: t) ++ C) = some 0 := by
  show findPair 255 216 _ = some 0
  rw [show (255 :: 216 :: t) ++ C = 255 :: 216 :: (t ++ C) from rfl,
    findPair_cons_cons]
  simp

theorem frame_end_lemma (t C : List Nat) (h2 : 2 ≤ t.length)
    (hfp : findPair 255 217 t = some (t.length - 2)) :
    findEndMarkerFrom2 ((255 :: 216 :: t) ++ C) = some t.length := by
  unfold findEndMarkerFrom2
  rw [show ((255 :: 216 :: t) ++ C).drop 2 = t ++ C from rfl,
    findPair_append_left t C _ hfp]
  simp only [Option.map_some']
  congr 1
  omega

theorem frame_take_lemma (t C : List Nat) :
    ((255 :: 216 :: t) ++ C).take (t.length + 2) = 255 :: 216 :: t := by
  rw [show t.length + 2 = (255 :: 216 :: t : List Nat).length by
    simp only [List.length_cons]]
  exact List.take_left _ _

theorem frame_drop_lemma (t C : List Nat) :
    ((255 :: 216 :: t) ++ C).drop (t.length + 2) = C := by
  rw [show t.length + 2 = (255 :: 216 :: t : List Nat).length by
    simp only [List.length_cons]]
  exact List.drop_left _ _

theorem partial_process_lemma (q : List Nat)
    (hfq : findPair 255 217 q = none) :
    process (255 :: 216 :: q) = ([], 255 :: 216 :: q) := by
  have hst : findStartMarker (255 :: 216 :: q) = some 0 := by
    show findPair 255 216 _ = some 0
    rw [findPair_cons_cons]
    simp
  have hen : findEndMarkerFrom2 ((255 :: 216 :: q).drop 0) = none := by
    rw [List.drop_zero]
    unfold findEndMarkerFrom2
    rw [show (255 :: 216 :: q).drop 2 = q from rfl, hfq]
    rfl
  rw [process_no_end hst hen, List.drop_zero]

theorem process_frame_head (t C : List Nat) (h2 : 2 ≤ t.length)
    (hfp : findPair 255 217 t = some (t.length - 2)) :
    process ((255 :: 216 :: t) ++ C) =
      ((255 :: 216 :: t) :: (process C).1, (process C).2) := by
  have hstart : findStartMarker ((255 :: 216 :: t) ++ C) = some 0 :=
    frame_start_lemma t C
  have hend : findEndMarkerFrom2 (((255 :: 216 :: t) ++ C).drop 0) =
      some t.length := by
    rw [List.drop_zero]
    exact frame_end_lemma t C h2 hfp
  rw [process_frame hstart hend, List.drop_zero, frame_take_lemma,
    frame_drop_lemma]

theorem frame_shape {f : List Nat} (h : isFrame f) :
    ∃ t, f = 255 :: 216 :: t ∧ 2 ≤ t.length ∧
      findPair 255 217 t = some (t.length - 2) := by
  obtain ⟨hlen, htake, hfind⟩ := h
  rcases f with _ | ⟨b0, f'⟩
  · simp at htake
  rcases f' with _ | ⟨b1, t⟩
  · simp at htake
  · have hb : b0 = 255 ∧ b1 = 216 := by
      simpa [List.take] using htake
    obtain ⟨rfl, rfl⟩ := hb
    refine ⟨t, rfl, ?_, ?_⟩
    · simp only [List.length_cons] at hlen
      omega
    · have hfind2 : findPair 255 217 t =
          some ((255 :: 216 :: t : List Nat).length - 4) := hfind
      have harith : (255 :: 216 :: t : List Nat).length - 4 = t.length - 2 := by
        simp only [List.length_cons]
        omega
      rw [harith] at hfind2
      exact hfind2

theorem partial_shape {p : List Nat} (h : isPartial p) :
    ∃ q, p = 255 :: 216 :: q ∧ findPair 255 217 q = none := by
  obtain ⟨htake, hfind⟩ := h
  rcases p with _ | ⟨b0, p'⟩
  · simp at htake
  rcases p' with _ | ⟨b1, q⟩
  · simp at htake
  · have hb : b0 = 255 ∧ b1 = 216 := by
      simpa [List.take] using htake
    obtain ⟨rfl, rfl⟩ := hb
    exact ⟨q, rfl, hfind⟩

theorem findStart_through_garbage (g rest : List Nat)
    (hg : findStartMarker g = none) (t : List Nat)
    (hr : rest = 255 :: 216 :: t) :
    findStartMarker (g ++ rest) = some g.length := by
  subst hr
  rcases hge : g with _ | ⟨x, gt⟩
  · show findPair 255 216 (255 :: 216 :: t) = some 0
    rw [findPair_cons_cons]
    simp
  · subst hge
    have hskip := findPair_skip (x :: gt) (255 :: 216 :: t) (by simp) hg
    show findPair 255 216 ((x :: gt) ++ (255 :: 216 :: t)) = _
    rw [hskip]
    obtain ⟨z, hz⟩ := keepLast_nonempty (x :: gt) (by simp)
    rw [hz]
    rw [show ([z] ++ (255 :: 216 :: t) : List Nat) = z :: 255 :: 216 :: t
      from rfl]
    rw [findPair_cons_cons, if_neg (by simp), findPair_cons_cons,
      if_pos ⟨rfl, rfl⟩]
    simp only [Option.map_some']
    congr 1
    simp only [List.length_cons]
    omega

theorem process_full_input {g f1 f2 p : List Nat}
    (hg : findStartMarker g = none) (hf1 : isFrame f1) (hf2 : isFrame f2)
    (hp : isPartial p) :
    process (g ++ (f1 ++ (f2 ++ p))) = ([f1, f2], p) := by
  obtain ⟨t1, rfl, ht1len, hfp1⟩ := frame_shape hf1
  obtain ⟨t2, rfl, ht2len, hfp2⟩ := frame_shape hf2
  obtain ⟨q, rfl, hfq⟩ := partial_shape hp
  have hstart0 : findStartMarker (g ++ ((255 :: 216 :: t1) ++
      ((255 :: 216 :: t2) ++ (255 :: 216 :: q)))) = some g.length :=
    findStart_through_garbage g _ hg
      (t1 ++ ((255 :: 216 :: t2) ++ (255 :: 216 :: q))) rfl
  have hdropg : (g ++ ((255 :: 216 :: t1) ++ ((255 :: 216 :: t2) ++
      (255 :: 216 :: q)))).drop g.length =
      (255 :: 216 :: t1) ++ ((255 :: 216 :: t2) ++ (255 :: 216 :: q)) :=
    List.drop_left _ _
  have hend0 : findEndMarkerFrom2 ((g ++ ((255 :: 216 :: t1) ++
      ((255 :: 216 :: t2) ++ (255 :: 216 :: q)))).drop g.length) =
      some t1.length := by
    rw [hdropg]
    exact frame_end_lemma t1 _ ht1len hfp1
  rw [process_frame hstart0 hend0, hdropg, frame_take_lemma,
    frame_drop_lemma]
  rw [process_frame_head t2 _ ht2len hfp2, partial_process_lemma q hfq]

/-- C4: the MJPEG frame extractor of `generate_rtsp_mjpeg_stream`, fed the
byte sequence garbage ++ frame1 ++ frame2 ++ partial under ANY chunk
partition (one byte at a time included), emits exactly the two complete
frames, byte-identical to their delimited 0xFFD8..0xFFD9 spans, and retains
exactly the trailing partial frame in its buffer; moreover, a buffer with
no start marker is reduced to its trailing byte (a possible partial
marker), and the end-marker scan begins two bytes past the buffer start. -/
theorem mjpeg_extraction (g f1 f2 p : List Nat) (chunks : List (List Nat))
    (hg : findStartMarker g = none)
    (hf1 : isFrame f1) (hf2 : isFrame f2) (hp : isPartial p)
    (hchunks : chunks.flatten = g ++ (f1 ++ (f2 ++ p))) :
    run_chunks chunks = { buffer := p, emitted := [f1, f2] }
    ∧ (∀ b, findStartMarker b = none → process b = ([], keepLast b))
    ∧ (∀ b, findEndMarkerFrom2 b =
        (findPair 0xff 0xd9 (b.drop 2)).map (· + 2)) := by
  refine ⟨?_, fun b hb => process_no_start hb, fun b => rfl⟩
  rw [run_chunks_eq, hchunks, process_full_input hg hf1 hf2 hp]

/-- Witness for C4: garbage byte `[7]`, two four-plus-one-byte frames and a
trailing partial, delivered one byte at a time. -/
theorem mjpeg_extraction_witness :
    run_chunks [[7], [255], [216], [1], [255], [217], [255], [216], [2],
        [255], [217], [255], [216], [3]] =
      { buffer := [255, 216, 3],
        emitted := [[255, 216, 1, 255, 217], [255, 216, 2, 255, 217]] } :=
  (mjpeg_extraction [7] [255, 216, 1, 255, 217] [255, 216, 2, 255, 217]
    [255, 216, 3]
    [[7], [255], [216], [1], [255], [217], [255], [216], [2], [255], [217],
     [255], [216], [3]]
    (by decide) (by decide) (by decide) (by decide) (by decide)).1
